import Mathlib

/-!
Verification of the ds-sim scheduling client (`src/client.py`).

The client talks to a discrete-event simulator over a line-oriented text
protocol.  We give a shallow embedding of the pure parts of the client:
string splitting, record and job parsing (`gets_servers`, the `JOBN`/`JOBP`
branch of `main`), the policy functions (`pick_fastest`, `choose_fc`,
`choose_fafc`, `choose_ect`), the `JCPL` handler, the handshake, and the
dispatch step.  Socket reads are modelled by an explicit stream of lines
(`recvLine`); a zero-length read yields the empty string, matching
`recv_line`'s behaviour on a closed peer.  Python `float` costs are modelled
as rationals; an uncaught Python exception is modelled as `none`.
-/

namespace DsClient

/-- Splitting a character list on space runs, discarding empty fields
(the character-level core of Python `str.split()`; all protocol lines are
space-separated and already stripped of the newline by `recv_line`). -/
def splitWs : List Char → List Char → List (List Char)
  | [], acc => if acc = [] then [] else [acc.reverse]
  | c :: cs, acc =>
    if c = ' ' then
      (if acc = [] then splitWs cs [] else acc.reverse :: splitWs cs [])
    else splitWs cs (c :: acc)

/-- Python `str.split()` with no argument, on the space-separated protocol
lines. -/
def pySplit (s : String) : List String :=
  (splitWs s.data []).map String.mk

/-- Value of a non-empty decimal digit run; `none` on an empty run or a
non-digit character. -/
def digitsVal : List Char → Option Nat
  | [] => none
  | l =>
    l.foldl
      (fun acc c =>
        match acc with
        | none => none
        | some n => if c.isDigit then some (n * 10 + (c.toNat - 48)) else none)
      (some 0)

/-- Python `int(s)` on the (optionally `-`-signed) decimal fields that occur
on the wire; `none` models a `ValueError`. -/
def pyInt (s : String) : Option Int :=
  match s.data with
  | '-' :: rest => (digitsVal rest).map (fun n => -(n : Int))
  | l => (digitsVal l).map (fun n => (n : Int))

/-- Split a character list on `.` characters, keeping empty pieces (as
Python `str.split(".")` does). -/
def splitDot : List Char → List Char → List (List Char)
  | [], acc => [acc.reverse]
  | c :: cs, acc =>
    if c = '.' then acc.reverse :: splitDot cs [] else splitDot cs (c :: acc)

/-- Python `float(s)` restricted to the decimal literals that occur in
server records, modelled exactly as a rational; `none` models `ValueError`. -/
def pyFloat (s : String) : Option ℚ :=
  match splitDot s.data [] with
  | [a] => (pyInt (String.mk a)).map (fun n => (n : ℚ))
  | [a, b] =>
    match pyInt (String.mk a), digitsVal b with
    | some ai, some bn =>
      some ((ai : ℚ) +
        (if ai < 0 then -1 else 1) * (bn : ℚ) / ((10 : ℚ) ^ b.length))
    | _, _ => none
  | _ => none

/-- `header.startswith(tag)`. -/
def startsWithL (tag s : String) : Bool :=
  tag.data.isPrefixOf s.data

/-- A server record as built by `gets_servers` / the `GETS All` loop in
`main`.  `finishTime` is the ECT auxiliary field `finish_time`, initialised
to `cur_start` when the record is created by the `GETS All` loop (records
from `gets_servers` never have their `finishTime` consulted). -/
structure SRec where
  stype : String
  sid : String
  sstate : String
  curStart : Int
  cores : Int
  mem : Int
  disk : Int
  cost : ℚ
  finishTime : Int
deriving DecidableEq, Repr

/-- Parse one record line as in `gets_servers` (and the identical `GETS All`
loop): fields `type id state cur_start cores mem disk`, with `cost` taken
from field 8 when at least 9 fields are present and defaulting to 1.0 when
absent or malformed.  `none` models the `IndexError`/`ValueError` the Python
code raises on a short or non-numeric record. -/
def parseServerRec (line : String) : Option SRec :=
  let r := pySplit line
  if 7 ≤ r.length then
    match pyInt (r.getD 3 ""), pyInt (r.getD 4 ""), pyInt (r.getD 5 ""),
        pyInt (r.getD 6 "") with
    | some curStart, some cores, some mem, some disk =>
      let cost : ℚ :=
        if 9 ≤ r.length then (pyFloat (r.getD 8 "")).getD 1 else 1
      some ⟨r.getD 0 "", r.getD 1 "", r.getD 2 "", curStart, cores, mem, disk,
        cost, curStart⟩
    | _, _, _, _ => none
  else none

/-- One blocking `recv_line` on a stream of pending lines: a closed peer
(empty stream) produces the empty string, as zero-length reads do in
`recv_line`. -/
def recvLine : List String → String × List String
  | [] => ("", [])
  | l :: ls => (l, ls)

/-- The record-reading loop of `gets_servers`: read `n` lines and parse each;
the first parse failure models the uncaught exception aborting the whole
query (`none`), in which case the already-consumed part of the stream stays
consumed. -/
def readRecords : Nat → List String → Option (List SRec) × List String
  | 0, s => (some [], s)
  | n + 1, s =>
    let (line, s1) := recvLine s
    match parseServerRec line with
    | none => (none, s1)
    | some r =>
      match readRecords n s1 with
      | (none, s2) => (none, s2)
      | (some rs, s2) => (some (r :: rs), s2)

/-- `gets_servers(sock, query)`: returns the list of lines sent by the
client, the parsed records (`none` models the uncaught exception on a
malformed record or header), and the unconsumed part of the incoming
stream.  A header that does not start with `DATA` yields the empty record
list after consuming only the header. -/
def gets_servers (query : String) (stream : List String) :
    List String × Option (List SRec) × List String :=
  let (header, s1) := recvLine stream
  if startsWithL "DATA" header then
    match pyInt ((pySplit header).getD 1 "") with
    | none => ([query], none, s1)
    | some n =>
      match readRecords n.toNat s1 with
      | (none, s2) => ([query, "OK"], none, s2)
      | (some rs, s2) =>
        let (_, s3) := recvLine s2
        ([query, "OK", "OK"], some rs, s3)
  else ([query], some [], s1)

/-- Python `int(s.id)` as used in `pick_fastest`'s tie-break; the records on
the wire carry numeric ids, and the theorems about `pick_fastest` assume
`pyInt` succeeds on them (Python would raise otherwise). -/
def idNum (s : String) : Int :=
  (pyInt s).getD 0

/-- Lexicographic order on character lists by code point, the order Python
uses to compare strings. -/
def charsLt : List Char → List Char → Bool
  | [], [] => false
  | [], _ :: _ => true
  | _ :: _, [] => false
  | c :: cs, d :: ds => if c < d then true else if c = d then charsLt cs ds else false

/-- Python string comparison `a < b`. -/
def strLt (a b : String) : Bool :=
  charsLt a.data b.data

/-- Python tuple comparison `(t1, i1) < (t2, i2)` with a string first
component and integer second component. -/
def pairLt (t1 : String) (i1 : Int) (t2 : String) (i2 : Int) : Bool :=
  if strLt t1 t2 then true else if t1 = t2 then decide (i1 < i2) else false

/-- One iteration of `pick_fastest`'s loop: adopt the first record, then
prefer strictly more cores, and on a core tie the smaller
`(type, int(id))` pair. -/
def pickStep (best : Option SRec) (s : SRec) : Option SRec :=
  match best with
  | none => some s
  | some b =>
    if s.cores > b.cores then some s
    else if s.cores = b.cores ∧
        pairLt s.stype (idNum s.sid) b.stype (idNum b.sid) then some s
    else some b

/-- `pick_fastest(servers)`: keep the record with the most cores, breaking
core ties by the smaller `(type, int(id))` pair; `None` on an empty list. -/
def pick_fastest (servers : List SRec) : Option SRec :=
  servers.foldl pickStep none

/-- Capacity eligibility of a server for a demand, as written inline in
`choose_fc` and `choose_ect`. -/
def eligible (s : SRec) (jobCores jobMem jobDisk : Int) : Prop :=
  jobCores ≤ s.cores ∧ jobMem ≤ s.mem ∧ jobDisk ≤ s.disk

instance (s : SRec) (c m d : Int) : Decidable (eligible s c m d) := by
  unfold eligible; infer_instance

/-- `choose_fc`: first server in `server_state` iteration order (insertion
order of the `GETS All` records) whose capacity covers the demand.  The
dict `server_state` is modelled as its insertion-ordered entry list. -/
def choose_fc (serverState : List SRec) (jobCores jobMem jobDisk : Int) :
    Option (String × String) :=
  match serverState.find? (fun s => eligible s jobCores jobMem jobDisk) with
  | some s => some (s.stype, s.sid)
  | none => none

/-- `choose_fafc`, abstracted over the network: `avail` and `capable` are
the record lists returned by the two `GETS` queries (the demand only
parameterises the query strings, so it does not appear here), and
`allServers` is the static `GETS All` list used as the final fallback. -/
def choose_fafc (avail capable allServers : List SRec) :
    Option (String × String) :=
  if avail ≠ [] then (pick_fastest avail).map (fun s => (s.stype, s.sid))
  else if capable ≠ [] then (pick_fastest capable).map (fun s => (s.stype, s.sid))
  else (pick_fastest allServers).map (fun s => (s.stype, s.sid))

/-- The score `choose_ect` assigns an eligible server: completion time from
`start_time = max(finish_time, job_submit, current_time)` and
`rt = max(est_runtime, 1)`, plus the cost penalty `0.001 * cost * rt`.
Python float arithmetic is modelled exactly over ℚ. -/
def ectScore (s : SRec) (jobSubmit currentTime rt : Int) : ℚ :=
  ((max (max s.finishTime jobSubmit) currentTime + rt : Int) : ℚ) +
    1 / 1000 * s.cost * (rt : ℚ)

/-- One iteration of `choose_ect`'s loop: skip ineligible servers, otherwise
keep the strictly better (smaller) score, so the first-listed server wins
exact score ties. -/
def ectStep (jobSubmit jobCores jobMem jobDisk currentTime rt : Int)
    (acc : Option ((String × String) × ℚ)) (s : SRec) :
    Option ((String × String) × ℚ) :=
  if eligible s jobCores jobMem jobDisk then
    let score := ectScore s jobSubmit currentTime rt
    match acc with
    | none => some ((s.stype, s.sid), score)
    | some (k, bs) => if score < bs then some ((s.stype, s.sid), score) else some (k, bs)
  else acc

/-- `choose_ect`: minimise `ectScore` over the eligible servers of
`server_state` (in iteration order); `current_time` is read from the
enclosing scope in the Python code and passed explicitly here. -/
def choose_ect (serverState : List SRec)
    (jobSubmit jobCores jobMem jobDisk estRuntime currentTime : Int) :
    Option (String × String) :=
  let rt := max estRuntime 1
  (serverState.foldl (ectStep jobSubmit jobCores jobMem jobDisk currentTime rt)
    none).map Prod.fst

/-- A parsed job request, as bound by the `JOBN`/`JOBP` branch of `main`
(the job id is kept as the raw string `parts[2]`, never converted). -/
structure Job where
  submitTime : Int
  jobId : String
  cores : Int
  mem : Int
  disk : Int
  estRuntime : Int
deriving DecidableEq, Repr

/-- The job parser of `main` (lines 308–318): fixed layout
`JOBN submit id cores mem disk estRuntime`; an event with fewer than 7
whitespace-separated tokens is skipped (`continue`), and a non-numeric
numeric field raises an uncaught `ValueError` — both yield `none` (no job
is scheduled).  The fleet maxima are not consulted. -/
def parseJob (parts : List String) : Option Job :=
  if parts.length < 7 then none
  else
    match pyInt (parts.getD 1 ""), pyInt (parts.getD 3 ""),
        pyInt (parts.getD 4 ""), pyInt (parts.getD 5 ""),
        pyInt (parts.getD 6 "") with
    | some st, some c, some m, some d, some e =>
      some ⟨st, parts.getD 2 "", c, m, d, e⟩
    | _, _, _, _, _ => none

/-- The disambiguating job parser described by the spec (§4.4), written from
the spec's words for comparison with `parseJob`: the first three value
fields are `(cores, memory, disk)` only if each is within the fleet-wide
maxima learned from `GETS All`; otherwise the fields are reinterpreted as
`(estRuntime, cores, memory, disk)`; fewer than 6 numeric fields is a
`ParseError` (the job is skipped). -/
def parseJobSpec (maxCores maxMem maxDisk : Int) (parts : List String) :
    Option Job :=
  if parts.length < 7 then none
  else
    match pyInt (parts.getD 1 ""), pyInt (parts.getD 3 ""),
        pyInt (parts.getD 4 ""), pyInt (parts.getD 5 ""),
        pyInt (parts.getD 6 "") with
    | some st, some f1, some f2, some f3, some f4 =>
      if f1 ≤ maxCores ∧ f2 ≤ maxMem ∧ f3 ≤ maxDisk then
        some ⟨st, parts.getD 2 "", f1, f2, f3, f4⟩
      else
        some ⟨st, parts.getD 2 "", f2, f3, f4, f1⟩
    | _, _, _, _, _ => none

/-- The `JCPL` branch of the event loop (lines 291–302): with at least 5
tokens, read `t = int(parts[1])` and key the update by
`(parts[2], parts[3])`; raise `current_time` to `t` and the keyed server's
`finish_time` to `max(finish_time, t)`.  Shorter events change nothing;
`none` models the uncaught `ValueError` of `int`. -/
def handleJCPL (serverState : List SRec) (currentTime : Int)
    (parts : List String) : Option (List SRec × Int) :=
  if 5 ≤ parts.length then
    match pyInt (parts.getD 1 "") with
    | none => none
    | some t =>
      some
        (serverState.map (fun s =>
          if s.stype = parts.getD 2 "" ∧ s.sid = parts.getD 3 "" then
            { s with finishTime := max s.finishTime t }
          else s),
        max currentTime t)
  else some (serverState, currentTime)

/-- The handshake (lines 131–146): send `HELO`, read `resp1`, send
`AUTH <algo>` unconditionally, read `resp2`, then check both replies.  The
result lists the lines sent and whether the client proceeds into the event
loop (`true`) or sends `QUIT` and exits with status 1 (`false`). -/
def handshake (algoArg : String) (resp1 resp2 : String) :
    List String × Bool :=
  let sent := ["HELO", "AUTH " ++ algoArg]
  if resp1 = "OK" ∧ resp2 = "OK" then (sent, true)
  else (sent ++ ["QUIT"], false)

/-- The tail of the job branch (lines 345–358), after `best_key` is chosen:
raise the chosen server's `finish_time` to the predicted completion
`max(finish_time, submit_time, current_time) + max(est_runtime, 1)`, then
send `SCHD <jobId> <type> <id>` and read (and discard) one reply line.
Returns the lines sent, the new scheduler state, and the unread replies. -/
def dispatchAndUpdate (serverState : List SRec) (bestKey : String × String)
    (jobId : String) (submitTime currentTime estRuntime : Int)
    (replies : List String) : List String × List SRec × List String :=
  let rt := max estRuntime 1
  let newState := serverState.map (fun s =>
    if s.stype = bestKey.1 ∧ s.sid = bestKey.2 then
      { s with finishTime := max (max s.finishTime submitTime) currentTime + rt }
    else s)
  let cmd := "SCHD " ++ jobId ++ " " ++ bestKey.1 ++ " " ++ bestKey.2
  let (_, rest) := recvLine replies
  ([cmd], newState, rest)

/-! ### Concrete records used by witnesses and counterexamples -/

/-- A record with many cores but almost no memory. -/
def srvX : SRec := ⟨"x", "0", "idle", 0, 8, 1, 1000, 1, 0⟩

/-- A modest record with ample memory. -/
def srvY : SRec := ⟨"y", "1", "idle", 0, 2, 100, 1000, 1, 0⟩

/-- An expensive record that is free immediately. -/
def srvA : SRec := ⟨"typeA", "3", "idle", 0, 4, 100, 1000, 1000, 0⟩

/-- A free-of-charge record that is busy until time 50. -/
def srvB : SRec := ⟨"typeB", "0", "idle", 0, 4, 100, 1000, 0, 50⟩

/-- A record whose `finish_time` estimate stands at 100. -/
def srvG : SRec := ⟨"gpu", "3", "idle", 0, 4, 100, 1000, 1, 100⟩

/-! ### Order lemmas for the `(type, int(id))` tie-break -/

lemma charsLt_trans : ∀ {a b c : List Char},
    charsLt a b = true → charsLt b c = true → charsLt a c = true := by
  intro a
  induction a with
  | nil =>
    intro b c hab hbc
    cases b with
    | nil => simp [charsLt] at hab
    | cons y ys =>
      cases c with
      | nil => simp [charsLt] at hbc
      | cons z zs => simp [charsLt]
  | cons x xs ih =>
    intro b c hab hbc
    cases b with
    | nil => simp [charsLt] at hab
    | cons y ys =>
      cases c with
      | nil => simp [charsLt] at hbc
      | cons z zs =>
        simp only [charsLt] at hab hbc ⊢
        by_cases hxy : x < y
        · by_cases hyz : y < z
          · simp [lt_trans hxy hyz]
          · simp [hyz] at hbc
            by_cases hyz2 : y = z
            · subst hyz2; simp [hxy]
            · simp [hyz2] at hbc
        · simp [hxy] at hab
          by_cases hxy2 : x = y
          · subst hxy2
            simp [hxy] at hab
            by_cases hxz : x < z
            · simp [hxz]
            · simp [hxz] at hbc ⊢
              by_cases hxz2 : x = z
              · subst hxz2
                simp at hbc ⊢
                exact ih hab hbc
              · simp [hxz2] at hbc
          · simp [hxy2] at hab

lemma pairLt_trans {t1 t2 t3 : String} {i1 i2 i3 : Int}
    (h12 : pairLt t1 i1 t2 i2 = true) (h23 : pairLt t2 i2 t3 i3 = true) :
    pairLt t1 i1 t3 i3 = true := by
  unfold pairLt strLt at h12 h23 ⊢
  by_cases a12 : charsLt t1.data t2.data
  · by_cases a23 : charsLt t2.data t3.data
    · simp [charsLt_trans a12 a23]
    · simp [a23] at h23
      by_cases e23 : t2 = t3
      · subst e23; simp [a12]
      · simp [e23] at h23
  · simp [a12] at h12
    by_cases e12 : t1 = t2
    · subst e12
      simp [a12] at h12
      by_cases a13 : charsLt t1.data t3.data
      · simp [a13]
      · simp [a13] at h23 ⊢
        by_cases e13 : t1 = t3
        · simp [e13] at h23 ⊢
          omega
        · simp [e13] at h23
    · simp [e12] at h12

lemma charsLt_irrefl : ∀ a : List Char, charsLt a a = false := by
  intro a
  induction a with
  | nil => simp [charsLt]
  | cons c cs ih => simp [charsLt, lt_irrefl, ih]

lemma charsLt_trichotomy : ∀ a b : List Char,
    charsLt a b = true ∨ a = b ∨ charsLt b a = true := by
  intro a
  induction a with
  | nil =>
    intro b
    cases b with
    | nil => right; left; rfl
    | cons y ys => left; simp [charsLt]
  | cons x xs ih =>
    intro b
    cases b with
    | nil => right; right; simp [charsLt]
    | cons y ys =>
      rcases lt_trichotomy x y with hxy | hxy | hxy
      · left; simp [charsLt, hxy]
      · subst hxy
        rcases ih ys with h | h | h
        · left; simp [charsLt, lt_irrefl, h]
        · subst h; right; left; rfl
        · right; right; simp [charsLt, lt_irrefl, h]
      · right; right; simp [charsLt, hxy]

lemma pairLt_irrefl (t : String) (i : Int) : pairLt t i t i = false := by
  unfold pairLt strLt
  simp [charsLt_irrefl]

lemma strEq_of_dataEq {a b : String} (h : a.data = b.data) : a = b := by
  cases a; cases b; exact congrArg String.mk h

lemma pairLt_total (t1 : String) (i1 : Int) (t2 : String) (i2 : Int) :
    pairLt t1 i1 t2 i2 = true ∨ (t1 = t2 ∧ i1 = i2) ∨
      pairLt t2 i2 t1 i1 = true := by
  unfold pairLt strLt
  rcases charsLt_trichotomy t1.data t2.data with h | h | h
  · left; simp [h]
  · have e : t1 = t2 := strEq_of_dataEq h
    subst e
    rcases lt_trichotomy i1 i2 with hi | hi | hi
    · left; simp [charsLt_irrefl, hi]
    · right; left; exact ⟨rfl, hi⟩
    · right; right; simp [charsLt_irrefl, hi]
  · right; right; simp [h]

lemma pairLt_notLt_of_rel {t1 t2 t3 : String} {i1 i2 i3 : Int}
    (h12 : pairLt t1 i1 t2 i2 = false) (h23 : pairLt t2 i2 t3 i3 = false) :
    pairLt t1 i1 t3 i3 = false := by
  by_contra hne
  have h13 : pairLt t1 i1 t3 i3 = true := by
    cases hq : pairLt t1 i1 t3 i3 with
    | true => rfl
    | false => exact absurd hq hne
  rcases pairLt_total t2 i2 t1 i1 with h | h | h
  · have := pairLt_trans h h13
    rw [this] at h23
    exact Bool.noConfusion h23
  · rcases h with ⟨he, hi⟩
    rw [he, hi] at h23
    rw [h13] at h23
    exact Bool.noConfusion h23
  · rw [h] at h12
    exact Bool.noConfusion h12

lemma pickFold_spec : ∀ (l : List SRec) (b0 : SRec),
    ∃ b, List.foldl pickStep (some b0) l = some b ∧
      (b = b0 ∨ b ∈ l) ∧
      b0.cores ≤ b.cores ∧ (∀ s ∈ l, s.cores ≤ b.cores) ∧
      (b0.cores = b.cores →
        pairLt b0.stype (idNum b0.sid) b.stype (idNum b.sid) = false) ∧
      (∀ s ∈ l, s.cores = b.cores →
        pairLt s.stype (idNum s.sid) b.stype (idNum b.sid) = false) := by
  intro l
  induction l with
  | nil =>
    intro b0
    exact ⟨b0, rfl, Or.inl rfl, le_refl _, by simp, fun _ => pairLt_irrefl _ _,
      by simp⟩
  | cons s tl ih =>
    intro b0
    rw [List.foldl_cons]
    by_cases h1 : s.cores > b0.cores
    · have hstep : pickStep (some b0) s = some s := by simp [pickStep, h1]
      rw [hstep]
      obtain ⟨b, hfold, hmem, hc0, hcall, hp0, hpall⟩ := ih s
      refine ⟨b, hfold, ?_, ?_, ?_, ?_, ?_⟩
      · rcases hmem with h | h
        · exact Or.inr (by simp [h])
        · exact Or.inr (List.mem_cons_of_mem _ h)
      · omega
      · intro x hx
        rcases List.mem_cons.mp hx with h | h
        · subst h; exact hc0
        · exact hcall x h
      · intro he; omega
      · intro x hx hxe
        rcases List.mem_cons.mp hx with h | h
        · subst h; exact hp0 hxe
        · exact hpall x h hxe
    · by_cases h2 : s.cores = b0.cores ∧
          pairLt s.stype (idNum s.sid) b0.stype (idNum b0.sid) = true
      · have hstep : pickStep (some b0) s = some s := by
          simp [pickStep, h1, h2]
        rw [hstep]
        obtain ⟨b, hfold, hmem, hc0, hcall, hp0, hpall⟩ := ih s
        refine ⟨b, hfold, ?_, ?_, ?_, ?_, ?_⟩
        · rcases hmem with h | h
          · exact Or.inr (by simp [h])
          · exact Or.inr (List.mem_cons_of_mem _ h)
        · omega
        · intro x hx
          rcases List.mem_cons.mp hx with h | h
          · subst h; exact hc0
          · exact hcall x h
        · intro he
          have hsb : pairLt s.stype (idNum s.sid) b.stype (idNum b.sid) = false :=
            hp0 (by omega)
          by_contra hne
          have hb0b : pairLt b0.stype (idNum b0.sid) b.stype (idNum b.sid) = true := by
            cases hq : pairLt b0.stype (idNum b0.sid) b.stype (idNum b.sid) with
            | true => rfl
            | false => exact absurd hq hne
          have := pairLt_trans h2.2 hb0b
          rw [this] at hsb
          exact Bool.noConfusion hsb
        · intro x hx hxe
          rcases List.mem_cons.mp hx with h | h
          · subst h; exact hp0 hxe
          · exact hpall x h hxe
      · have hstep : pickStep (some b0) s = some b0 := by
          simp only [pickStep]
          rw [if_neg h1, if_neg h2]
        rw [hstep]
        obtain ⟨b, hfold, hmem, hc0, hcall, hp0, hpall⟩ := ih b0
        have hsle : s.cores ≤ b0.cores := by omega
        refine ⟨b, hfold, ?_, hc0, ?_, hp0, ?_⟩
        · rcases hmem with h | h
          · exact Or.inl h
          · exact Or.inr (List.mem_cons_of_mem _ h)
        · intro x hx
          rcases List.mem_cons.mp hx with h | h
          · subst h; omega
          · exact hcall x h
        · intro x hx hxe
          rcases List.mem_cons.mp hx with h | h
          · subst h
            have hse : x.cores = b0.cores := by omega
            have hsb0 : pairLt x.stype (idNum x.sid) b0.stype (idNum b0.sid) = false := by
              cases hq : pairLt x.stype (idNum x.sid) b0.stype (idNum b0.sid) with
              | false => rfl
              | true => exact absurd (And.intro hse hq) h2
            exact pairLt_notLt_of_rel hsb0 (hp0 (by omega))
          · exact hpall x h hxe

/-- C10: `pick_fastest` returns `none` exactly when its input list is empty;
for a non-empty list of records with numeric ids it returns an element of
the list whose `cores` is maximal over the list, and among the records
attaining that maximum one whose `(type, int(id))` pair is lexicographically
least. -/
theorem C10_pick_fastest (l : List SRec)
    (hid : ∀ s ∈ l, (pyInt s.sid).isSome) :
    (pick_fastest l = none ↔ l = []) ∧
    ∀ b, pick_fastest l = some b →
      b ∈ l ∧ (∀ s ∈ l, s.cores ≤ b.cores) ∧
      ∀ s ∈ l, s.cores = b.cores →
        pairLt s.stype (idNum s.sid) b.stype (idNum b.sid) = false := by
  cases l with
  | nil =>
    constructor
    · simp [pick_fastest]
    · intro b hb
      simp [pick_fastest] at hb
  | cons s tl =>
    have hrw : pick_fastest (s :: tl) = List.foldl pickStep (some s) tl := rfl
    obtain ⟨b, hfold, hmem, hc0, hcall, hp0, hpall⟩ := pickFold_spec tl s
    constructor
    · constructor
      · intro h
        rw [hrw, hfold] at h
        exact Option.noConfusion h
      · intro h
        exact List.noConfusion h
    · intro b2 hb2
      rw [hrw, hfold] at hb2
      have hbe : b = b2 := by injection hb2
      subst hbe
      refine ⟨?_, ?_, ?_⟩
      · rcases hmem with h | h
        · exact h ▸ List.mem_cons_self _ _
        · exact List.mem_cons_of_mem _ h
      · intro x hx
        rcases List.mem_cons.mp hx with h | h
        · subst h; exact hc0
        · exact hcall x h
      · intro x hx hxe
        rcases List.mem_cons.mp hx with h | h
        · subst h; exact hp0 hxe
        · exact hpall x h hxe

/-- Concrete instantiation of `C10_pick_fastest`: on `[srvX, srvY]` the
record `srvX` (8 cores) is picked and dominates both records. -/
theorem C10_pick_fastest_witness :
    srvX ∈ [srvX, srvY] ∧ (∀ s ∈ [srvX, srvY], s.cores ≤ srvX.cores) ∧
      ∀ s ∈ [srvX, srvY], s.cores = srvX.cores →
        pairLt s.stype (idNum s.sid) srvX.stype (idNum srvX.sid) = false :=
  (C10_pick_fastest [srvX, srvY] (by decide)).2 srvX (by decide)

/-- C1 fails on the code: with fleet maxima `(4, 1024, 10000)` the event
`JOBN 0 7 100 1 1 50` has `100 > 4`, so the claimed parser reinterprets the
layout, while the code's parser keeps the fixed layout and reads 100 cores. -/
theorem C1_counterexample :
    (parseJob (pySplit "JOBN 0 7 100 1 1 50")).map Job.cores = some 100 ∧
    (parseJobSpec 4 1024 10000 (pySplit "JOBN 0 7 100 1 1 50")).map Job.cores =
      some 1 ∧
    parseJob (pySplit "JOBN 0 7 100 1 1 50") ≠
      parseJobSpec 4 1024 10000 (pySplit "JOBN 0 7 100 1 1 50") :=
  ⟨by decide, by decide, by decide⟩

/-- C1 (amended): the job parser uses the fixed layout
`JOBN submit id cores mem disk estRuntime` without consulting any fleet
maxima, and an event with fewer than 7 tokens is skipped. -/
theorem C1_fixed_layout :
    (∀ parts : List String, parts.length < 7 → parseJob parts = none) ∧
    ∀ (tag jid sts cs ms ds es : String) (rest : List String)
      (st c m d e : Int), pyInt sts = some st → pyInt cs = some c →
      pyInt ms = some m → pyInt ds = some d → pyInt es = some e →
      parseJob (tag :: sts :: jid :: cs :: ms :: ds :: es :: rest) =
        some ⟨st, jid, c, m, d, e⟩ := by
  constructor
  · intro parts h
    simp [parseJob, h]
  · intro tag jid sts cs ms ds es rest st c m d e h1 h2 h3 h4 h5
    have hlen : ¬ (tag :: sts :: jid :: cs :: ms :: ds :: es :: rest).length < 7 := by
      simp
    simp [parseJob, hlen, List.getD_cons_succ, List.getD_cons_zero, h1, h2, h3,
      h4, h5]

/-- Concrete instantiation of `C1_fixed_layout`. -/
theorem C1_fixed_layout_witness :
    parseJob ["JOBN"] = none ∧
    parseJob ["JOBN", "10", "7", "2", "512", "1000", "50"] =
      some ⟨10, "7", 2, 512, 1000, 50⟩ :=
  ⟨C1_fixed_layout.1 ["JOBN"] (by decide),
   C1_fixed_layout.2 "JOBN" "7" "10" "2" "512" "1000" "50" [] 10 2 512 1000 50
     (by decide) (by decide) (by decide) (by decide) (by decide)⟩

/-- C4 fails on the code: a rejected `SCHD` gets no retry — exactly one
`SCHD` line is sent even when the reply is not `OK`. -/
theorem C4_counterexample :
    "job rejected" ≠ "OK" ∧
    (dispatchAndUpdate [srvA] ("typeA", "3") "12" 0 0 10 ["job rejected"]).1 =
      ["SCHD 12 typeA 3"] ∧
    (dispatchAndUpdate [srvA] ("typeA", "3") "12" 0 0 10
      ["job rejected"]).1.length ≠ 2 :=
  ⟨by decide, by decide, by decide⟩

/-- C4 (amended): the client sends one `SCHD` command, reads one reply line
and discards it without inspecting it; the outcome is identical whatever the
reply says, and the loop proceeds in every case. -/
theorem C4_no_retry (st : List SRec) (key : String × String) (jid : String)
    (sub ct er : Int) (r : String) (rest : List String) :
    dispatchAndUpdate st key jid sub ct er (r :: rest) =
      dispatchAndUpdate st key jid sub ct er ("OK" :: rest) ∧
    (dispatchAndUpdate st key jid sub ct er (r :: rest)).1 =
      ["SCHD " ++ jid ++ " " ++ key.1 ++ " " ++ key.2] ∧
    (dispatchAndUpdate st key jid sub ct er (r :: rest)).2.2 = rest :=
  ⟨rfl, rfl, rfl⟩

/-- C5 fails on the code: the chosen server's `finish_time` is advanced to
the predicted completion before the `SCHD` reply is read, so it is updated
even when the dispatch is rejected. -/
theorem C5_counterexample :
    "job rejected" ≠ "OK" ∧
    (dispatchAndUpdate [srvA] ("typeA", "3") "12" 0 0 10
      ["job rejected"]).2.1.map SRec.finishTime = [10] ∧
    srvA.finishTime = 0 :=
  ⟨by decide, by decide, by decide⟩

/-- C5 (amended): for any reply whatsoever, the dispatch step maps the
chosen server to the predicted-completion update
`max(finish_time, submit_time, current_time) + max(est_runtime, 1)`. -/
theorem C5_update_unconditional (st : List SRec) (key : String × String)
    (jid : String) (sub ct er : Int) (r : String) (rest : List String)
    (s : SRec) (hs : s ∈ st) (ht : s.stype = key.1) (hi : s.sid = key.2) :
    ({ s with finishTime := max (max s.finishTime sub) ct + max er 1 } : SRec) ∈
      (dispatchAndUpdate st key jid sub ct er (r :: rest)).2.1 := by
  have hrw : (dispatchAndUpdate st key jid sub ct er (r :: rest)).2.1 =
      st.map (fun x => if x.stype = key.1 ∧ x.sid = key.2 then
        { x with finishTime := max (max x.finishTime sub) ct + max er 1 }
      else x) := rfl
  rw [hrw]
  exact List.mem_map.mpr ⟨s, hs, by simp [ht, hi]⟩

/-- Concrete instantiation of `C5_update_unconditional` at a rejected
dispatch. -/
theorem C5_update_unconditional_witness :
    ({ srvA with finishTime := max (max srvA.finishTime 0) 0 + max 10 1 } : SRec) ∈
      (dispatchAndUpdate [srvA] ("typeA", "3") "12" 0 0 10
        ["job rejected"]).2.1 :=
  C5_update_unconditional [srvA] ("typeA", "3") "12" 0 0 10 "job rejected" []
    srvA (List.mem_cons_self _ _) rfl rfl

/-- C6 fails on the code: `AUTH` is sent before the `HELO` reply is checked,
so it goes out even when that reply is not `OK` (the fatal non-zero exit
without entering the loop does hold). -/
theorem C6_counterexample :
    "ERR" ≠ "OK" ∧
    "AUTH myalgo" ∈ (handshake "myalgo" "ERR" "NOPE").1 ∧
    (handshake "myalgo" "ERR" "NOPE").2 = false :=
  ⟨by decide, by decide, by decide⟩

/-- C6 (amended): the client always sends `HELO` then `AUTH` and only then
checks the two replies; if either is not exactly `OK` it sends `QUIT` and
exits with status 1 without entering the event loop, otherwise it proceeds. -/
theorem C6_handshake (algoArg r1 r2 : String) :
    (handshake algoArg r1 r2).1.take 2 = ["HELO", "AUTH " ++ algoArg] ∧
    (¬(r1 = "OK" ∧ r2 = "OK") →
      handshake algoArg r1 r2 = (["HELO", "AUTH " ++ algoArg, "QUIT"], false)) ∧
    (r1 = "OK" → r2 = "OK" →
      handshake algoArg r1 r2 = (["HELO", "AUTH " ++ algoArg], true)) := by
  refine ⟨?_, ?_, ?_⟩
  · by_cases h : r1 = "OK" ∧ r2 = "OK" <;> simp [handshake, h]
  · intro h
    simp [handshake, h]
  · intro h1 h2
    simp [handshake, h1, h2]

/-- Concrete instantiation of `C6_handshake` at a failed handshake. -/
theorem C6_handshake_witness :
    handshake "myalgo" "ERR" "NOPE" =
      (["HELO", "AUTH " ++ "myalgo", "QUIT"], false) :=
  (C6_handshake "myalgo" "ERR" "NOPE").2.1 (by decide)

/-- C7 fails on the code: for `JCPL 50 J7 gpu 3` (the claim's layout
`JCPL time jobId type id`, with `("gpu","3")` in the third and fourth
fields after the tag) the code instead keys the update by
`(parts[2], parts[3]) = ("J7", "gpu")`, so the server `("gpu","3")` keeps
`finish_time = 100`, which is not `≤ 50` as the claim requires. -/
theorem C7_counterexample :
    (handleJCPL [srvG] 0 (pySplit "JCPL 50 J7 gpu 3")).map
        (fun p => (p.1.map SRec.finishTime, p.2)) = some ([100], 50) ∧
    ¬ (100 : Int) ≤ 50 :=
  ⟨by decide, by decide⟩

/-- C7 (amended): the `JCPL` handler keys the update by the second and third
fields after the tag (the code reads the event as
`JCPL time serverType serverID jobID`), raises `current_time` to the event
time, and raises — never lowers — the keyed server's `finish_time` to
`max(finish_time, t)`, so after the update the estimate is `≥ t`, not
`≤ t`. -/
theorem C7_jcpl (st : List SRec) (ct : Int) (tag ts sty sid p5 : String)
    (rest : List String) (t : Int) (hts : pyInt ts = some t) :
    handleJCPL st ct (tag :: ts :: sty :: sid :: p5 :: rest) =
      some (st.map (fun s => if s.stype = sty ∧ s.sid = sid then
        { s with finishTime := max s.finishTime t } else s), max ct t) ∧
    ∀ s ∈ st, s.stype = sty ∧ s.sid = sid →
      ({ s with finishTime := max s.finishTime t } : SRec) ∈
        st.map (fun s2 => if s2.stype = sty ∧ s2.sid = sid then
          { s2 with finishTime := max s2.finishTime t } else s2) ∧
      t ≤ max s.finishTime t := by
  constructor
  · have hlen : 5 ≤ (tag :: ts :: sty :: sid :: p5 :: rest).length := by
      simp
    simp [handleJCPL, hlen, List.getD_cons_succ, List.getD_cons_zero, hts]
  · intro s hs hkey
    exact ⟨List.mem_map.mpr ⟨s, hs, by simp [hkey.1, hkey.2]⟩,
      le_max_right _ _⟩

/-- Concrete instantiation of `C7_jcpl` on the layout the code actually
reads. -/
theorem C7_jcpl_witness :
    handleJCPL [srvG] 0 ["JCPL", "50", "gpu", "3", "J7"] =
      some ([srvG].map (fun s => if s.stype = "gpu" ∧ s.sid = "3" then
        { s with finishTime := max s.finishTime 50 } else s), max 0 50) :=
  (C7_jcpl [srvG] 0 "JCPL" "50" "gpu" "3" "J7" [] 50 (by decide)).1

lemma readRecords_all_some : ∀ (recs tail : List String),
    (∀ r ∈ recs, (parseServerRec r).isSome) →
    readRecords recs.length (recs ++ tail) =
      (some (recs.filterMap parseServerRec), tail) := by
  intro recs
  induction recs with
  | nil => intro tail _; rfl
  | cons r rs ih =>
    intro tail h
    have hr : (parseServerRec r).isSome := h r (List.mem_cons_self _ _)
    obtain ⟨v, hv⟩ := Option.isSome_iff_exists.mp hr
    simp only [List.length_cons, List.cons_append, readRecords, recvLine, hv]
    rw [ih tail (fun x hx => h x (List.mem_cons_of_mem _ hx))]
    simp [List.filterMap_cons, hv]

lemma readRecords_abort : ∀ (recs tail : List String),
    (∃ r ∈ recs, parseServerRec r = none) →
    (readRecords recs.length (recs ++ tail)).1 = none := by
  intro recs
  induction recs with
  | nil =>
    intro tail h
    simp at h
  | cons r rs ih =>
    intro tail h
    cases hv : parseServerRec r with
    | none => simp [readRecords, recvLine, hv]
    | some v =>
      have hex : ∃ x ∈ rs, parseServerRec x = none := by
        rcases h with ⟨x, hx, hxn⟩
        rcases List.mem_cons.mp hx with he | hm
        · subst he
          rw [hv] at hxn
          exact Option.noConfusion hxn
        · exact ⟨x, hm, hxn⟩
      have h2 := ih tail hex
      simp only [List.length_cons, List.cons_append, readRecords, recvLine, hv]
      cases hq : readRecords rs.length (rs ++ tail) with
      | mk o s2 =>
        cases o with
        | none => simp
        | some rsv =>
          rw [hq] at h2
          simp at h2

lemma gets_servers_cons (q hdr : String) (tl : List String) :
    gets_servers q (hdr :: tl) =
      if startsWithL "DATA" hdr then
        match pyInt ((pySplit hdr).getD 1 "") with
        | none => ([q], none, tl)
        | some n =>
          match readRecords n.toNat tl with
          | (none, s2) => ([q, "OK"], none, s2)
          | (some rs, s2) => ([q, "OK", "OK"], some rs, (recvLine s2).2)
      else ([q], some [], tl) := rfl

/-- C9: when the `GETS` response header is `DATA <n> <recLen>` and the
stream carries `n` well-formed record lines followed by the `.` sentinel,
the client acknowledges the header with `OK`, consumes exactly the `n`
record lines, sends a second `OK`, consumes the sentinel, and returns the
parsed records with the rest of the stream untouched — the batched response
is fully drained before any new command, and record lines are consumed by
count, never mistaken for the sentinel. -/
theorem C9_gets_drains (q hdr : String) (n : Nat) (recs rest : List String)
    (hh : startsWithL "DATA" hdr = true)
    (hn : pyInt ((pySplit hdr).getD 1 "") = some (n : Int))
    (hlen : recs.length = n)
    (hrec : ∀ r ∈ recs, (parseServerRec r).isSome) :
    gets_servers q (hdr :: recs ++ "." :: rest) =
      ([q, "OK", "OK"], some (recs.filterMap parseServerRec), rest) := by
  subst hlen
  rw [List.cons_append, gets_servers_cons]
  simp only [hh, hn, Int.toNat_natCast, if_true]
  rw [readRecords_all_some recs ("." :: rest) hrec]
  rfl

/-- C8 (amended): a malformed record line inside the declared record count
is not skipped — parsing it raises an uncaught
`IndexError`/`ValueError`, so `gets_servers` aborts and returns no records
at all instead of the remaining well-formed ones. -/
theorem C8_malformed_aborts (q hdr : String) (n : Nat) (recs rest : List String)
    (hh : startsWithL "DATA" hdr = true)
    (hn : pyInt ((pySplit hdr).getD 1 "") = some (n : Int))
    (hlen : recs.length = n)
    (hbad : ∃ r ∈ recs, parseServerRec r = none) :
    (gets_servers q (hdr :: recs ++ rest)).2.1 = none := by
  subst hlen
  have habort := readRecords_abort recs rest hbad
  rw [List.cons_append, gets_servers_cons]
  simp only [hh, hn, Int.toNat_natCast, if_true]
  cases hq : readRecords recs.length (recs ++ rest) with
  | mk o s2 =>
    rw [hq] at habort
    cases o with
    | none => simp
    | some rsv => simp at habort

/-- Concrete instantiation of `C9_gets_drains`. -/
theorem C9_gets_drains_witness :
    gets_servers "GETS All" ["DATA 1 124", "x 0 idle 0 8 1 1000", ".", "tail"] =
      (["GETS All", "OK", "OK"],
        some (["x 0 idle 0 8 1 1000"].filterMap parseServerRec), ["tail"]) :=
  C9_gets_drains "GETS All" "DATA 1 124" 1 ["x 0 idle 0 8 1 1000"] ["tail"]
    (by decide) (by decide) (by decide) (by decide)

/-- C8 fails on the code: on a batch whose second record line is malformed,
the whole query aborts with an uncaught exception and returns no records,
even though a later well-formed record was present in the stream. -/
theorem C8_counterexample :
    (gets_servers "GETS Capable 2 100 1"
      ["DATA 3 124", "x 0 idle 0 8 1 1000", "bad",
        "y 1 idle 0 2 100 1000", "."]).2.1 = none ∧
    (parseServerRec "y 1 idle 0 2 100 1000").isSome :=
  ⟨by decide, by decide⟩

/-- Concrete instantiation of `C8_malformed_aborts`. -/
theorem C8_malformed_aborts_witness :
    (gets_servers "GETS Avail 1 1 1"
      ["DATA 2 124", "x 0 idle 0 8 1 1000", "short rec", "."]).2.1 = none :=
  C8_malformed_aborts "GETS Avail 1 1 1" "DATA 2 124" 2
    ["x 0 idle 0 8 1 1000", "short rec"] ["."] (by decide) (by decide)
    (by decide) (by decide)

lemma ectFold_spec (js jc jm jd ct rt : Int) :
    ∀ (l : List SRec) (acc : Option ((String × String) × ℚ)),
      (List.foldl (ectStep js jc jm jd ct rt) acc l = none ↔
        (acc = none ∧ ∀ s ∈ l, ¬ eligible s jc jm jd)) ∧
      ∀ k sc, List.foldl (ectStep js jc jm jd ct rt) acc l = some (k, sc) →
        (acc = some (k, sc) ∨
          ∃ s ∈ l, eligible s jc jm jd ∧ k = (s.stype, s.sid) ∧
            sc = ectScore s js ct rt) ∧
        (∀ s ∈ l, eligible s jc jm jd → sc ≤ ectScore s js ct rt) ∧
        (∀ k0 sc0, acc = some (k0, sc0) → sc ≤ sc0) := by
  intro l
  induction l with
  | nil =>
    intro acc
    constructor
    · simp
    · intro k sc h
      simp only [List.foldl_nil] at h
      refine ⟨Or.inl h, by simp, ?_⟩
      intro k0 sc0 h0
      rw [h0] at h
      have hsc : sc = sc0 :=
        (((Prod.mk.injEq _ _ _ _).mp ((Option.some.injEq _ _).mp h)).2).symm
      rw [hsc]
  | cons s tl ih =>
    intro acc
    rw [List.foldl_cons]
    by_cases helig : eligible s jc jm jd
    · cases acc with
      | none =>
        have hres : ectStep js jc jm jd ct rt none s =
            some ((s.stype, s.sid), ectScore s js ct rt) := by
          simp [ectStep, helig]
        obtain ⟨ihn, ihs⟩ := ih (ectStep js jc jm jd ct rt none s)
        constructor
        · constructor
          · intro h
            obtain ⟨hacc1, _⟩ := ihn.mp h
            rw [hres] at hacc1
            exact Option.noConfusion hacc1
          · intro ⟨_, hall⟩
            exact absurd helig (hall s (List.mem_cons_self _ _))
        · intro k sc h
          obtain ⟨horig, hmin, hacc⟩ := ihs k sc h
          refine ⟨?_, ?_, ?_⟩
          · rcases horig with he | ⟨x, hx, hex, hkx, hsx⟩
            · rw [hres] at he
              have hk := (Prod.mk.injEq _ _ _ _).mp ((Option.some.injEq _ _).mp he)
              exact Or.inr ⟨s, List.mem_cons_self _ _, helig, hk.1.symm, hk.2.symm⟩
            · exact Or.inr ⟨x, List.mem_cons_of_mem _ hx, hex, hkx, hsx⟩
          · intro x hx hex
            rcases List.mem_cons.mp hx with he | hm
            · subst he
              exact hacc _ _ hres
            · exact hmin x hm hex
          · intro k0 sc0 h0
            exact Option.noConfusion h0
      | some p =>
        obtain ⟨k0, sc0⟩ := p
        obtain ⟨ihn, ihs⟩ := ih (ectStep js jc jm jd ct rt (some (k0, sc0)) s)
        have hres : ectStep js jc jm jd ct rt (some (k0, sc0)) s =
            if ectScore s js ct rt < sc0
              then some ((s.stype, s.sid), ectScore s js ct rt)
              else some (k0, sc0) := by
          simp [ectStep, helig]
        constructor
        · constructor
          · intro h
            obtain ⟨hacc1, _⟩ := ihn.mp h
            rw [hres] at hacc1
            by_cases hlt : ectScore s js ct rt < sc0 <;> simp [hlt] at hacc1
          · intro ⟨hne, _⟩
            exact Option.noConfusion hne
        · intro k sc h
          obtain ⟨horig, hmin, hacc⟩ := ihs k sc h
          by_cases hlt : ectScore s js ct rt < sc0
          · rw [if_pos hlt] at hres
            refine ⟨?_, ?_, ?_⟩
            · rcases horig with he | ⟨x, hx, hex, hkx, hsx⟩
              · rw [hres] at he
                have hk := (Prod.mk.injEq _ _ _ _).mp ((Option.some.injEq _ _).mp he)
                exact Or.inr ⟨s, List.mem_cons_self _ _, helig, hk.1.symm, hk.2.symm⟩
              · exact Or.inr ⟨x, List.mem_cons_of_mem _ hx, hex, hkx, hsx⟩
            · intro x hx hex
              rcases List.mem_cons.mp hx with he | hm
              · subst he
                exact hacc _ _ hres
              · exact hmin x hm hex
            · intro k1 sc1 h1
              have hsc : sc0 = sc1 :=
                ((Prod.mk.injEq _ _ _ _).mp ((Option.some.injEq _ _).mp h1)).2
              rw [← hsc]
              exact le_of_lt (lt_of_le_of_lt (hacc _ _ hres) hlt)
          · rw [if_neg hlt] at hres
            refine ⟨?_, ?_, ?_⟩
            · rcases horig with he | ⟨x, hx, hex, hkx, hsx⟩
              · rw [hres] at he
                exact Or.inl he
              · exact Or.inr ⟨x, List.mem_cons_of_mem _ hx, hex, hkx, hsx⟩
            · intro x hx hex
              rcases List.mem_cons.mp hx with he | hm
              · subst he
                exact le_trans (hacc _ _ hres) (le_of_not_lt hlt)
              · exact hmin x hm hex
            · intro k1 sc1 h1
              have hsc : sc0 = sc1 :=
                ((Prod.mk.injEq _ _ _ _).mp ((Option.some.injEq _ _).mp h1)).2
              rw [← hsc]
              exact hacc _ _ hres
    · have hstep : ectStep js jc jm jd ct rt acc s = acc := by
        simp [ectStep, helig]
      rw [hstep]
      obtain ⟨ihn, ihs⟩ := ih acc
      constructor
      · rw [ihn]
        constructor
        · intro ⟨h1, h2⟩
          refine ⟨h1, ?_⟩
          intro x hx
          rcases List.mem_cons.mp hx with he | hm
          · subst he; exact helig
          · exact h2 x hm
        · intro ⟨h1, h2⟩
          exact ⟨h1, fun x hx => h2 x (List.mem_cons_of_mem _ hx)⟩
      · intro k sc h
        obtain ⟨horig, hmin, hacc⟩ := ihs k sc h
        refine ⟨?_, ?_, hacc⟩
        · rcases horig with he | ⟨x, hx, hex, hkx, hsx⟩
          · exact Or.inl he
          · exact Or.inr ⟨x, List.mem_cons_of_mem _ hx, hex, hkx, hsx⟩
        · intro x hx hex
          rcases List.mem_cons.mp hx with he | hm
          · subst he; exact absurd hex helig
          · exact hmin x hm hex

/-- C2 fails on the code: the cost term is a weighted penalty inside the
score, not a tie-break.  With `srvA` (free at 0, cost 1000) and `srvB`
(free at 50, cost 0) and a job submitted at 0 with `estRuntime = 100`,
`srvA`'s predicted completion (100, by the claim's own
`max(freeAt, submitTime) + estRuntime`) is strictly earlier than `srvB`'s
(150), yet `choose_ect` selects `srvB` because
`100 + 0.001·1000·100 = 200 > 150`. -/
theorem C2_counterexample :
    (max srvA.finishTime (0 : Int) + 100 < max srvB.finishTime (0 : Int) + 100) ∧
    choose_ect [srvA, srvB] 0 1 1 1 100 0 = some ("typeB", "0") :=
  ⟨by decide, by norm_num [choose_ect, ectStep, ectScore, eligible, srvA, srvB]⟩

/-- C2 (amended): `choose_ect` returns `none` exactly when no server in
`server_state` satisfies the capacity filter; otherwise it returns the key
of an eligible server minimising the score
`max(finish_time, submitTime, currentTime) + max(est,1)
 + 0.001·cost·max(est,1)` over all eligible servers (first in iteration
order on exact ties), so a strictly earlier predicted completion prevails
only when the cost penalty does not overturn it. -/
theorem C2_ect_minimises (st : List SRec) (js jc jm jd er ct : Int) :
    (choose_ect st js jc jm jd er ct = none ↔
      ∀ s ∈ st, ¬ eligible s jc jm jd) ∧
    ∀ t i, choose_ect st js jc jm jd er ct = some (t, i) →
      ∃ s ∈ st, eligible s jc jm jd ∧ s.stype = t ∧ s.sid = i ∧
        ∀ s2 ∈ st, eligible s2 jc jm jd →
          ectScore s js ct (max er 1) ≤ ectScore s2 js ct (max er 1) := by
  obtain ⟨hnone, hsome⟩ := ectFold_spec js jc jm jd ct (max er 1) st none
  constructor
  · unfold choose_ect
    rw [Option.map_eq_none']
    rw [hnone]
    simp
  · intro t i h
    unfold choose_ect at h
    rw [Option.map_eq_some'] at h
    obtain ⟨⟨k, sc⟩, hfold, hk⟩ := h
    obtain ⟨horig, hmin, _⟩ := hsome k sc hfold
    rcases horig with he | ⟨s, hs, hes, hks, hscs⟩
    · exact Option.noConfusion he
    · have hkti : k = (t, i) := hk
      rw [hks] at hkti
      have h1 := (Prod.mk.injEq _ _ _ _).mp hkti
      refine ⟨s, hs, hes, h1.1, h1.2, ?_⟩
      intro s2 hs2 hes2
      rw [← hscs]
      exact hmin s2 hs2 hes2

/-- Concrete instantiation of `C2_ect_minimises`: the selected `srvB` has
minimal score among the two eligible servers. -/
theorem C2_ect_minimises_witness :
    ∃ s ∈ [srvA, srvB], eligible s 1 1 1 ∧ s.stype = "typeB" ∧ s.sid = "0" ∧
      ∀ s2 ∈ [srvA, srvB], eligible s2 1 1 1 →
        ectScore s 0 0 (max 100 1) ≤ ectScore s2 0 0 (max 100 1) :=
  (C2_ect_minimises [srvA, srvB] 0 1 1 1 100 0).2 "typeB" "0"
    (by norm_num [choose_ect, ectStep, ectScore, eligible, srvA, srvB])

/-- C3 fails on the code: `choose_fafc` performs no client-side capacity
re-check on records returned by `GETS Avail`.  For a job demanding
`(2, 100, 1)`, the response `[srvX, srvY]` contains the eligible `srvY`,
but `pick_fastest` selects `srvX` (more cores) even though `srvX` has only
1 MB of memory. -/
theorem C3_counterexample :
    choose_fafc [srvX, srvY] [] [] = some ("x", "0") ∧
    eligible srvY 2 100 1 ∧ ¬ eligible srvX 2 100 1 :=
  ⟨by decide, by decide, by decide⟩

/-- C3 (amended): `choose_fc` and `choose_ect` do apply the capacity filter
before selection — any key they return belongs to an eligible server of
`server_state` — but `choose_fafc` trusts the server-side filtering of
`GETS Avail`/`Capable` and its final fallback ignores capacity entirely. -/
theorem C3_fc_ect_filter (st : List SRec) (c m d : Int) (t i : String) :
    (choose_fc st c m d = some (t, i) →
      ∃ s ∈ st, s.stype = t ∧ s.sid = i ∧ eligible s c m d) ∧
    ∀ js er ct, choose_ect st js c m d er ct = some (t, i) →
      ∃ s ∈ st, s.stype = t ∧ s.sid = i ∧ eligible s c m d := by
  constructor
  · intro h
    unfold choose_fc at h
    cases hf : List.find? (fun s => decide (eligible s c m d)) st with
    | none => rw [hf] at h; exact Option.noConfusion h
    | some s =>
      rw [hf] at h
      have hmem := List.mem_of_find?_eq_some hf
      have hp := List.find?_some hf
      have hel : eligible s c m d := of_decide_eq_true hp
      have hk := (Prod.mk.injEq _ _ _ _).mp ((Option.some.injEq _ _).mp h)
      exact ⟨s, hmem, hk.1, hk.2, hel⟩
  · intro js er ct h
    obtain ⟨hnone, hsome⟩ := ectFold_spec js c m d ct (max er 1) st none
    unfold choose_ect at h
    rw [Option.map_eq_some'] at h
    obtain ⟨⟨k, sc⟩, hfold, hk⟩ := h
    obtain ⟨horig, _, _⟩ := hsome k sc hfold
    rcases horig with he | ⟨s, hs, hes, hks, _⟩
    · exact Option.noConfusion he
    · have hkti : k = (t, i) := hk
      rw [hks] at hkti
      have h1 := (Prod.mk.injEq _ _ _ _).mp hkti
      exact ⟨s, hs, h1.1, h1.2, hes⟩

/-- Concrete instantiation of `C3_fc_ect_filter` for both policies. -/
theorem C3_fc_ect_filter_witness :
    (∃ s ∈ [srvY], s.stype = "y" ∧ s.sid = "1" ∧ eligible s 2 100 1) ∧
    ∃ s ∈ [srvY], s.stype = "y" ∧ s.sid = "1" ∧ eligible s 2 100 1 :=
  ⟨(C3_fc_ect_filter [srvY] 2 100 1 "y" "1").1 (by decide),
   (C3_fc_ect_filter [srvY] 2 100 1 "y" "1").2 0 50 0 (by decide)⟩

end DsClient
